import Mathlib

/-!
Verification development for the Ard-Engine ECS core.

The definitions below shallowly embed the relevant Rust sources:
  * `crates/ard-ecs/src/prw_lock.rs` (the panicking read/write lock),
  * `crates/ard-core/src/core.rs` (the `ArdCore` tick/stop system),
and, for the parts of the ECS crate whose sources are not present
(entity registry, archetype storage, dispatcher), models written from
the specification's contracts, each marked `Modelled from the spec:`.
-/

set_option maxRecDepth 4096

/-- Outcome of running a Rust operation that may `panic!`: either the
operation completes with a value, or it panics with a message. -/
inductive RustOutcome (α : Type) where
  | ok (a : α)
  | panicked (msg : String)
deriving Repr, DecidableEq

namespace RustOutcome

def isOk {α : Type} : RustOutcome α → Bool
  | .ok _ => true
  | .panicked _ => false

def isPanic {α : Type} : RustOutcome α → Bool
  | .ok _ => false
  | .panicked _ => true

end RustOutcome

/-! ## PrwLock (`crates/ard-ecs/src/prw_lock.rs`)

The shared `Arc<PrwLockInner<T>>` payload is the pair of the protected
data and the `AtomicU32` access counter.  Because every handle (the
lock and all guards) aliases the same inner cell, operations are
embedded as explicit state transformers on `PrwLockInner`.  The
embedding follows the code as written: the `fetch_add`/assert lines in
`read`/`write` and the `fetch_sub` lines in the guard `Drop` impls are
commented out in the source, so the corresponding Lean functions leave
`access_state` untouched and never panic. -/

/-- The `PrwLockInner<T>` struct: protected `data` plus the
`access_state: AtomicU32` counter (held here as a `Nat`; all source
arithmetic on it is modulo `2^32` but no live code path modifies it). -/
structure PrwLockInner (T : Type) where
  data : T
  access_state : Nat
deriving Repr, DecidableEq

/-- A `PrwReadLock<T>` guard.  In the source it owns an `Arc` clone of
the inner cell; here it carries the inner cell's contents. -/
structure PrwReadLock (T : Type) where
  inner : PrwLockInner T
deriving Repr, DecidableEq

/-- A `PrwWriteLock<T>` guard, likewise an owning handle on the inner
cell. -/
structure PrwWriteLock (T : Type) where
  inner : PrwLockInner T
deriving Repr, DecidableEq

namespace PrwLockInner

/-- `PrwLock::new`: wraps `data` with `access_state` initialised to 0. -/
def new {T : Type} (data : T) : PrwLockInner T :=
  { data := data, access_state := 0 }

/-- `PrwLock::read` as written in the source: the
`access_state.fetch_add(1)` and the `assert_ne!(access_state, u32::MAX)`
are commented out, so the call just clones the inner `Arc` and returns a
guard; the shared state is unchanged and no panic is possible. -/
def read {T : Type} (s : PrwLockInner T) :
    RustOutcome (PrwReadLock T × PrwLockInner T) :=
  .ok (⟨s⟩, s)

/-- `PrwLock::write` as written in the source: the
`access_state.fetch_add(u32::MAX)` and the `assert_eq!(access_state, 0)`
are commented out, so the call just clones the inner `Arc` and returns a
guard; the shared state is unchanged and no panic is possible. -/
def write {T : Type} (s : PrwLockInner T) :
    RustOutcome (PrwWriteLock T × PrwLockInner T) :=
  .ok (⟨s⟩, s)

/-- `Drop for PrwReadLock` as written: the `fetch_sub(1)` is commented
out, so dropping a read guard leaves the shared state unchanged. -/
def dropRead {T : Type} (s : PrwLockInner T) : PrwLockInner T :=
  s

/-- `Drop for PrwWriteLock` as written: the `fetch_sub(u32::MAX)` is
commented out, so dropping a write guard leaves the shared state
unchanged. -/
def dropWrite {T : Type} (s : PrwLockInner T) : PrwLockInner T :=
  s

/-- `Drop for PrwLockInner`: panics with
"outstanding access handle in archetype storage on drop" when
`access_state > 0`; this check is live code. -/
def dropInner {T : Type} (s : PrwLockInner T) : RustOutcome Unit :=
  if s.access_state > 0 then
    .panicked "outstanding access handle in archetype storage on drop"
  else
    .ok ()

end PrwLockInner

/-- `Deref for PrwReadLock`: `&self.0.data`. -/
def PrwReadLock.deref {T : Type} (g : PrwReadLock T) : T :=
  g.inner.data

/-- `Deref for PrwWriteLock`: `&self.0.data`. -/
def PrwWriteLock.deref {T : Type} (g : PrwWriteLock T) : T :=
  g.inner.data

/-- One surface operation on a `PrwLock`'s shared inner cell: acquiring
a read or write guard, or dropping a previously acquired guard. -/
inductive PrwOp where
  | acquireRead
  | acquireWrite
  | dropReadGuard
  | dropWriteGuard
deriving Repr, DecidableEq

/-- Effect of one `PrwOp` on the shared inner cell, following the
source code of each operation (acquisitions cannot panic, so the state
they produce is total). -/
def PrwOp.apply {T : Type} (op : PrwOp) (s : PrwLockInner T) : PrwLockInner T :=
  match op with
  | .acquireRead =>
      match s.read with
      | .ok (_, s') => s'
      | .panicked _ => s
  | .acquireWrite =>
      match s.write with
      | .ok (_, s') => s'
      | .panicked _ => s
  | .dropReadGuard => s.dropRead
  | .dropWriteGuard => s.dropWrite

/-- Runs a sequence of lock operations on the shared inner cell. -/
def runPrwOps {T : Type} (ops : List PrwOp) (s : PrwLockInner T) : PrwLockInner T :=
  match ops with
  | [] => s
  | op :: rest => runPrwOps rest (op.apply s)

/-! ## ArdCore (`crates/ard-core/src/core.rs`)

`Duration` is embedded as a `Nat` (nanoseconds); the source only adds,
compares and resets durations, so natural-number arithmetic is exact. -/

/-- Events submitted by the `ArdCore` system's handlers. -/
inductive CoreEvent where
  | postTick (d : Nat)
  | fixedTick (d : Nat)
  | stopping
deriving Repr, DecidableEq

/-- The `ArdCore` system struct: fixed-tick rate and accumulated timer. -/
structure ArdCore where
  fixed_rate : Nat
  fixed_timer : Nat
deriving Repr, DecidableEq

/-- The `ArdCoreState` resource: the `stopping` flag. -/
structure ArdCoreState where
  stopping : Bool
deriving Repr, DecidableEq

/-- `ArdCore::default()`: rate = `DEFAULT_FIXED_TICK_RATE` (33 ms, held
here in nanoseconds), timer = zero. -/
def ArdCore.default : ArdCore :=
  { fixed_rate := 33000000, fixed_timer := 0 }

/-- `ArdCore::tick`: when the `ArdCoreState` resource's `stopping` flag
is false, submits `PostTick(duration)`, accumulates the fixed timer and,
when it reaches the fixed rate, resets it and submits
`FixedTick(fixed_rate)`; when `stopping` is true it submits nothing and
leaves the timer untouched.  Returns the updated system struct, the
(unchanged) resource, and the submitted events in submission order. -/
def ArdCore.tick (core : ArdCore) (st : ArdCoreState) (duration : Nat) :
    ArdCore × ArdCoreState × List CoreEvent :=
  if !st.stopping then
    let timer := core.fixed_timer + duration
    if timer ≥ core.fixed_rate then
      ({ core with fixed_timer := 0 }, st,
        [.postTick duration, .fixedTick core.fixed_rate])
    else
      ({ core with fixed_timer := timer }, st, [.postTick duration])
  else
    (core, st, [])

/-- `ArdCore::stop`: sets the resource's `stopping` flag to true and
submits `Stopping`. -/
def ArdCore.stop (core : ArdCore) (st : ArdCoreState) :
    ArdCore × ArdCoreState × List CoreEvent :=
  (core, { st with stopping := true }, [.stopping])

/-- Delivers a sequence of `Tick` events (given by their durations) to
the `ArdCore` tick handler, collecting the events each tick submitted. -/
def ArdCore.runTicks (core : ArdCore) (st : ArdCoreState) :
    List Nat → List (List CoreEvent)
  | [] => []
  | d :: rest =>
      let (core', st', evs) := core.tick st d
      evs :: runTicks core' st' rest

/-! ## Entity Registry and deferred structural changes

The `ard-ecs` crate's `world::entities` module (the `Entities` registry)
and the archetype storages are declared by `world/mod.rs` but their
sources are not present; the model below follows the specification's
contracts for `create`/`destroy`/`is_alive` and the deferred "process
entities" step. -/

/-- An `Entity` handle: index plus generation (`NonZeroU32` in the data
model; handles issued by `create` always carry `ver ≥ 1`). -/
structure Entity where
  idx : Nat
  ver : Nat
deriving Repr, DecidableEq

/-- Modelled from the spec: the per-entity record kept by the Entity
Registry (`EntityInfo` in `world/mod.rs` plus the liveness bookkeeping
of the missing `world::entities` module): current generation, a
liveness flag, and the index of the archetype holding the entity. -/
structure EntitySlot where
  ver : Nat
  alive : Bool
  archetype : Nat
deriving Repr, DecidableEq

/-- Modelled from the spec: the Entity Registry (`Entities` in the
missing `world/entities.rs`): per-index slots, a free list of reusable
indices, and the staged creations/destructions that are applied only by
the "process entities" step. -/
structure Entities where
  slots : List EntitySlot
  free : List Nat
  pending_create : List Entity
  pending_destroy : List Entity
deriving Repr, DecidableEq

/-- `is_alive`: compares the supplied generation against the stored
generation for that index (and the slot must currently be live). -/
def Entities.is_alive (s : Entities) (e : Entity) : Bool :=
  match s.slots[e.idx]? with
  | some sl => sl.alive && sl.ver == e.ver
  | none => false

/-- Modelled from the spec: the World's data visible to these claims —
the Entity Registry plus, per archetype, the column of entities whose
components that archetype currently stores (the membership view of the
archetype storages; queries iterate exactly these columns). -/
structure WorldModel where
  entities : Entities
  archMembers : List (List Entity)
deriving Repr, DecidableEq

/-- Modelled from the spec: a fresh world — no entities, and the single
empty archetype (index 0) that newly created entities are enqueued
into. -/
def initWorld : WorldModel :=
  { entities := ⟨[], [], [], []⟩, archMembers := [[]] }

/-- Modelled from the spec: `create()` — reuses a freed index with a
strictly incremented generation when one is available, otherwise
allocates a fresh index with generation 1; the handle is immediately
valid (`is_alive` is true), and the entity is enqueued for insertion
into the empty archetype at the next "process entities" step. -/
def WorldModel.create (w : WorldModel) : Entity × WorldModel :=
  match w.entities.free with
  | i :: rest =>
      let old := w.entities.slots.getD i ⟨0, false, 0⟩
      let e : Entity := ⟨i, old.ver + 1⟩
      (e, { w with entities := { w.entities with
              slots := w.entities.slots.set i ⟨old.ver + 1, true, 0⟩,
              free := rest,
              pending_create := w.entities.pending_create ++ [e] } })
  | [] =>
      let e : Entity := ⟨w.entities.slots.length, 1⟩
      (e, { w with entities := { w.entities with
              slots := w.entities.slots ++ [⟨1, true, 0⟩],
              pending_create := w.entities.pending_create ++ [e] } })

/-- Modelled from the spec: `destroy(Entity)` — only stages the entity
for removal; the structural effect is applied by "process entities",
and stale or dead handles are silently ignored there. -/
def WorldModel.destroy (w : WorldModel) (e : Entity) : WorldModel :=
  { w with entities :=
      { w.entities with pending_destroy := w.entities.pending_destroy ++ [e] } }

/-- Modelled from the spec: applying one staged destruction during
"process entities": a stale or dead handle is a silent no-op; a live
handle's slot is marked dead, its index returned to the free list, and
its row removed from archetype storage (in this membership view, the
entity disappears from the archetype columns). -/
def destroyStep (w : WorldModel) (e : Entity) : WorldModel :=
  match w.entities.slots[e.idx]? with
  | some sl =>
      if sl.alive && sl.ver == e.ver then
        { entities := { w.entities with
            slots := w.entities.slots.set e.idx { sl with alive := false },
            free := w.entities.free ++ [e.idx] },
          archMembers := w.archMembers.map (fun ms => ms.filter (fun x => !(x == e))) }
      else w
  | none => w

/-- Modelled from the spec: the first phase of `process_entities` —
both staging queues are cleared and the staged creations are inserted
into the empty archetype (index 0). -/
def WorldModel.processBase (w : WorldModel) : WorldModel :=
  { entities := { w.entities with pending_create := [], pending_destroy := [] },
    archMembers := (w.entities.pending_create).foldl
      (fun ms e => ms.set 0 ((ms.getD 0 []) ++ [e])) w.archMembers }

/-- Modelled from the spec: `process_entities` — flushes all staged
structural changes: first the staged creations (see `processBase`),
then the staged destructions, applied in order. -/
def WorldModel.process (w : WorldModel) : WorldModel :=
  (w.entities.pending_destroy).foldl destroyStep w.processBase

/-- Modelled from the spec: whether a query (iterating the archetype
columns) returns the entity — the entity is present in some archetype's
entity column. -/
def WorldModel.queryReturns (w : WorldModel) (e : Entity) : Bool :=
  w.archMembers.any (fun ms => ms.any (fun x => x == e))

/-- A stale handle's relationship to the registry: the slot at the
handle's index exists, its stored generation is at least the handle's,
and when the generations coincide the slot is dead — so the handle can
never again be reported alive. -/
def staleFor (w : WorldModel) (e : Entity) : Prop :=
  ∃ sl : EntitySlot, w.entities.slots[e.idx]? = some sl ∧
    e.ver ≤ sl.ver ∧ (sl.ver = e.ver → sl.alive = false)

/-- One registry-level operation of a trace: a `create()` call (the
returned handle is determined by the state), a `destroy(e)` call, or a
"process entities" step. -/
inductive WorldOp where
  | create
  | destroy (e : Entity)
  | process
deriving Repr, DecidableEq

/-- Effect of one trace operation on the world. -/
def WorldOp.apply (op : WorldOp) (w : WorldModel) : WorldModel :=
  match op with
  | .create => (w.create).2
  | .destroy e => w.destroy e
  | .process => w.process

/-- Runs a trace of registry operations. -/
def runWorldOps (ops : List WorldOp) (w : WorldModel) : WorldModel :=
  match ops with
  | [] => w
  | op :: rest => runWorldOps rest (op.apply w)

/-! ## Archetype Storage (column-level model)

The archetype storage sources are not present under the ECS crate; the
model below follows the specification's Archetype Storage contract:
column-oriented storage, one column per component type, all columns in
lockstep, `insert` appending a row, `remove` swap-removing a row, and
`migrate` composed of remove-from-source plus insert-into-destination.
Component type identifiers and component values are embedded as `Nat`
(value equality models bit-for-bit equality of the moved bytes). -/

/-- Association-list lookup by component type key (first match). -/
def alookup {β : Type} (t : Nat) : List (Nat × β) → Option β
  | [] => none
  | c :: rest => if c.1 = t then some c.2 else alookup t rest

/-- Index of the first occurrence of an entity in a column. -/
def idxOfE (e : Entity) : List Entity → Option Nat
  | [] => none
  | x :: rest => if x = e then some 0 else (idxOfE e rest).map (· + 1)

/-- Rust `Vec::swap_remove(i)`: returns the removed element and the
vector where the previously last element now occupies position `i`;
an out-of-range index is the fatal programming-error case (`none`). -/
def swapRemove {α : Type} (l : List α) (i : Nat) : Option (α × List α) :=
  match l[i]?, l[l.length - 1]? with
  | some x, some last => some (x, l.dropLast.set i last)
  | _, _ => none

/-- Modelled from the spec: an archetype of the missing archetype
storage module — its component-type set, the entity column, and one
value column per component type, all kept in lockstep. -/
structure Archetype where
  types : List Nat
  entities : List Entity
  columns : List (Nat × List Nat)
deriving Repr, DecidableEq

/-- Well-formedness of an archetype: the columns are keyed exactly by
the type set in order, every column has the same length as the entity
column, the type set has no duplicates, and each entity owns at most
one row. -/
def Archetype.wf (a : Archetype) : Prop :=
  a.columns.map Prod.fst = a.types ∧
  (∀ tc ∈ a.columns, (tc.2 : List Nat).length = a.entities.length) ∧
  a.types.Nodup ∧
  a.entities.Nodup

instance (a : Archetype) : Decidable a.wf := by
  unfold Archetype.wf
  infer_instance

/-- Modelled from the spec: `insert(ArchetypeId, Entity, components)`
— appends one row to every column, taking each column's value from the
supplied components by type, and returns the new row's index; the
components must cover the archetype's type set. -/
def Archetype.insert (a : Archetype) (e : Entity) (comps : List (Nat × Nat)) :
    Option (Archetype × Nat) :=
  if a.types.all (fun t => (alookup t comps).isSome) then
    some ({ a with
        entities := a.entities ++ [e],
        columns := a.columns.map (fun tc => (tc.1, tc.2 ++ [(alookup tc.1 comps).getD 0])) },
      a.entities.length)
  else none

/-- Modelled from the spec: `remove(ArchetypeId, row_index)` —
swap-removes row `i` from every column, returns the removed row's
components, and reports the entity that was moved into row `i` (the
previously last entity; `none` when the removed row was the last). -/
def Archetype.remove (a : Archetype) (i : Nat) :
    Option (List (Nat × Nat) × Option Entity × Archetype) :=
  match swapRemove a.entities i with
  | none => none
  | some (_, ents') =>
      let removed := a.columns.filterMap (fun tc => (tc.2[i]?).map (fun v => (tc.1, v)))
      let cols' := a.columns.map (fun tc =>
        (tc.1, match swapRemove tc.2 i with
               | some (_, c) => c
               | none => tc.2))
      let moved := if i + 1 < a.entities.length then a.entities[a.entities.length - 1]? else none
      some (removed, moved, { a with entities := ents', columns := cols' })

/-- Modelled from the spec: `migrate(Entity, from, to, added/removed)`
— locates the entity's row in the source archetype, removes it, keeps
the components whose types are not being removed, and inserts the kept
plus added components into the destination archetype; one pure
composition, so the caller observes no intermediate state.  Returns the
updated source and destination, the entity moved into the vacated
source row, and the entity's destination row. -/
def Archetype.migrate (e : Entity) (src dst : Archetype)
    (added : List (Nat × Nat)) (removed : List Nat) :
    Option (Archetype × Archetype × Option Entity × Nat) :=
  match idxOfE e src.entities with
  | none => none
  | some i =>
      match src.remove i with
      | none => none
      | some (comps, moved, src') =>
          let kept := comps.filter (fun c => !(removed.contains c.1))
          match dst.insert e (kept ++ added) with
          | none => none
          | some (dst', row) => some (src', dst', moved, row)

/-- Value of component type `t` stored for entity `e` in archetype `a`
(the entry of `t`'s column at `e`'s row). -/
def Archetype.valueOf (a : Archetype) (e : Entity) (t : Nat) : Option Nat :=
  match idxOfE e a.entities, alookup t a.columns with
  | some i, some col => col[i]?
  | _, _ => none

/-- The Entity Registry's row pointers, as an association from entity
to its current row index within its archetype. -/
def lookupRow (ptrs : List (Entity × Nat)) (e : Entity) : Option Nat :=
  match ptrs with
  | [] => none
  | p :: rest => if p.1 = e then some p.2 else lookupRow rest e

/-- Registry row-pointer update applied after a swap-remove reports the
moved entity: that entity's row pointer is set to the vacated index. -/
def updateRowPointer (ptrs : List (Entity × Nat)) (e : Entity) (r : Nat) :
    List (Entity × Nat) :=
  ptrs.map (fun p => if p.1 = e then (p.1, r) else p)

/-! ## Dispatcher event delivery

The Dispatcher sources are not present; the model below follows the
specification's Event Queue / Dispatcher contract: events are typed
values in a per-round buffer; one round delivers every buffered event
to every system registered with a handler for its type, then the
buffer is cleared and the events submitted during the round become the
next round's input, cascading until no events remain. -/

/-- Modelled from the spec: a registered system as the dispatcher sees
it — its identity, the event types it has handlers for, and the events
it submits when handling an event (given the event's type and value). -/
structure DSystem where
  id : Nat
  handles : List Nat
  emit : Nat → Nat → List (Nat × Nat)

/-- The systems registered with a handler for event type `t`. -/
def handlersFor (systems : List DSystem) (t : Nat) : List DSystem :=
  systems.filter (fun s => s.handles.contains t)

/-- Modelled from the spec: the deliveries of one dispatch round —
each buffered event (type, value) is delivered to each system with a
handler for its type, exactly once, as a (system id, event) pair. -/
def roundDeliveries (systems : List DSystem) (queue : List (Nat × Nat)) :
    List (Nat × (Nat × Nat)) :=
  match queue with
  | [] => []
  | ev :: rest =>
      (handlersFor systems ev.1).map (fun s => (s.id, ev)) ++
        roundDeliveries systems rest

/-- Modelled from the spec: the events submitted by the handlers while
processing one round's buffer, in delivery order; these become the next
round's buffer (the processed buffer itself is discarded). -/
def roundEmissions (systems : List DSystem) (queue : List (Nat × Nat)) :
    List (Nat × Nat) :=
  match queue with
  | [] => []
  | ev :: rest =>
      ((handlersFor systems ev.1).map (fun s => s.emit ev.1 ev.2)).flatten ++
        roundEmissions systems rest

/-- Modelled from the spec: a dispatcher run — rounds of delivery
cascade until the buffer is empty (`fuel` bounds the cascade depth);
the result is the list of per-round deliveries. -/
def dispatchRun (systems : List DSystem) :
    Nat → List (Nat × Nat) → List (List (Nat × (Nat × Nat)))
  | 0, _ => []
  | _, [] => []
  | fuel + 1, q =>
      roundDeliveries systems q ::
        dispatchRun systems fuel (roundEmissions systems q)

/-! ## Theorems -/

/-- Every lock operation, as written in the source, leaves the shared
inner cell untouched (the counter updates are commented out and the
acquisitions never fail). -/
theorem PrwOp.apply_eq_self {T : Type} (op : PrwOp) (s : PrwLockInner T) :
    op.apply s = s := by
  cases op <;> rfl

/-- Running any sequence of lock operations leaves the shared inner
cell untouched. -/
theorem runPrwOps_eq_self {T : Type} (ops : List PrwOp) (s : PrwLockInner T) :
    runPrwOps ops s = s := by
  induction ops with
  | nil => rfl
  | cons op rest ih => simpa [runPrwOps, PrwOp.apply_eq_self] using ih

/-- C1: the claim states that `write()` on a `PrwLock` with an
outstanding guard panics immediately.  Evaluating the embedded code at
the failing input (a lock on `42` whose first `write()` guard is still
outstanding) shows the second `write()` returns a guard without
panicking: the `fetch_add`/assert lines of `PrwLock::read`/`write` are
commented out in the source, contradicting the crate's own
`should_panic` tests (`prw_lock_multiple_writers`,
`prw_lock_readers_and_writers`). -/
theorem C1_second_write_returns_guard :
    ∃ (g1 : PrwWriteLock Nat) (s1 : PrwLockInner Nat),
      (PrwLockInner.new (42 : Nat)).write = RustOutcome.ok (g1, s1) ∧
      (s1.write).isPanic = false ∧
      s1.write = RustOutcome.ok (⟨s1⟩, s1) := by
  exact ⟨⟨PrwLockInner.new 42⟩, PrwLockInner.new 42, rfl, rfl, rfl⟩

/-- C2: the claim states that dropping the lock's inner storage while
a guard is outstanding panics via the outstanding-access counter.
Evaluating the embedded code at the failing input (a lock on `42` with
an outstanding read guard) shows `PrwLockInner`'s destructor finds
`access_state = 0` — the guard acquisitions never increment it — and
returns without panicking, contradicting the source's own doc comment
("if the lock is dropped before any handles, a panic will occur"). -/
theorem C2_drop_inner_with_guard_no_panic :
    ∃ (g1 : PrwReadLock Nat) (s1 : PrwLockInner Nat),
      (PrwLockInner.new (42 : Nat)).read = RustOutcome.ok (g1, s1) ∧
      s1.access_state = 0 ∧
      s1.dropInner = RustOutcome.ok () := by
  exact ⟨⟨PrwLockInner.new 42⟩, PrwLockInner.new 42, rfl, rfl, rfl⟩

/-- C9: for every value `v`, the guard returned by `read()` on a fresh
lock and the guard returned by `write()` each dereference to `v`; each
guard owns its handle on the inner cell (its `deref` is a function of
the guard alone, so it needs no access to — and survives the dropping
of — the `PrwLock` handle it came from). -/
theorem C9_guards_deref_to_value (T : Type) (v : T) :
    (PrwLockInner.new v).read =
      RustOutcome.ok (⟨PrwLockInner.new v⟩, PrwLockInner.new v) ∧
    (PrwLockInner.new v).write =
      RustOutcome.ok (⟨PrwLockInner.new v⟩, PrwLockInner.new v) ∧
    PrwReadLock.deref (⟨PrwLockInner.new v⟩ : PrwReadLock T) = v ∧
    PrwWriteLock.deref (⟨PrwLockInner.new v⟩ : PrwWriteLock T) = v := by
  exact ⟨rfl, rfl, rfl, rfl⟩

/-- C10: from construction onward the access-state counter stays 0 —
`read()`, `write()` and guard drops never modify it — so `read()` and
`write()` always return a guard without panicking, and the
outstanding-access check in `PrwLockInner`'s destructor never fires on
a lock state reachable by any sequence of operations. -/
theorem C10_access_state_always_zero (T : Type) (v : T) (ops : List PrwOp) :
    (runPrwOps ops (PrwLockInner.new v)).access_state = 0 ∧
    runPrwOps ops (PrwLockInner.new v) = PrwLockInner.new v ∧
    (∀ s : PrwLockInner T, (s.read).isOk = true ∧ (s.write).isOk = true) ∧
    (runPrwOps ops (PrwLockInner.new v)).dropInner = RustOutcome.ok () := by
  refine ⟨?_, runPrwOps_eq_self ops _, fun s => ⟨rfl, rfl⟩, ?_⟩
  · rw [runPrwOps_eq_self]; rfl
  · rw [runPrwOps_eq_self]; rfl

/-- C8: a stop request is observed rather than forced — `stop` is an
ordinary handler that sets the `stopping` flag and submits `Stopping`;
once the flag is set, every subsequently delivered `Tick` causes the
tick handler to submit no further events (no `PostTick`, no
`FixedTick`), whatever the tick durations are. -/
theorem C8_stop_is_observed (core c : ArdCore) (st : ArdCoreState) (ds : List Nat) :
    ((ArdCore.stop core st).2.1).stopping = true ∧
    (ArdCore.stop core st).2.2 = [CoreEvent.stopping] ∧
    ArdCore.runTicks c ((ArdCore.stop core st).2.1) ds =
      List.replicate ds.length [] := by
  refine ⟨rfl, rfl, ?_⟩
  induction ds generalizing c with
  | nil => rfl
  | cons d rest ih =>
      have h := ih c
      simp only [ArdCore.runTicks, ArdCore.tick, ArdCore.stop,
        List.replicate_succ, List.length_cons] at h ⊢
      simp [h]

/-- `is_alive` unfolded: the slot at the handle's index exists, is
live, and stores the handle's generation. -/
theorem Entities.is_alive_iff (s : Entities) (e : Entity) :
    s.is_alive e = true ↔
      ∃ sl : EntitySlot, s.slots[e.idx]? = some sl ∧
        sl.alive = true ∧ sl.ver = e.ver := by
  unfold Entities.is_alive
  cases h : s.slots[e.idx]? with
  | none => simp
  | some sl => simp [Bool.and_eq_true, beq_iff_eq]

/-- Per-index effect of applying one staged destruction: the slot at
the destroyed handle's index is marked dead when it was live with the
matching generation; every other slot (and every slot's generation) is
untouched. -/
theorem destroyStep_slots_get (w : WorldModel) (e : Entity) (i : Nat) :
    (destroyStep w e).entities.slots[i]? =
      (w.entities.slots[i]?).map (fun sl =>
        if i = e.idx ∧ sl.alive = true ∧ sl.ver = e.ver then
          { sl with alive := false }
        else sl) := by
  by_cases hie : i = e.idx
  · subst hie
    unfold destroyStep
    cases h : w.entities.slots[e.idx]? with
    | none => simp [h]
    | some sl =>
        by_cases hc : sl.alive = true ∧ sl.ver = e.ver
        · have hb : (sl.alive && sl.ver == e.ver) = true := by
            rw [Bool.and_eq_true, beq_iff_eq]; exact hc
          have hlt : e.idx < w.entities.slots.length := by
            rcases List.getElem?_eq_some_iff.mp h with ⟨hl, _⟩
            exact hl
          simp [hb, h, hc, List.getElem?_set_self hlt]
        · have hb : ¬((sl.alive && sl.ver == e.ver) = true) := by
            rw [Bool.and_eq_true, beq_iff_eq]; exact hc
          simp [hb, h, hc]
  · unfold destroyStep
    have hmap : (w.entities.slots[i]?).map (fun sl =>
        if i = e.idx ∧ sl.alive = true ∧ sl.ver = e.ver then
          { sl with alive := false }
        else sl) = w.entities.slots[i]? := by
      cases h2 : w.entities.slots[i]? with
      | none => rfl
      | some sl2 => simp [hie]
    rw [hmap]
    cases h : w.entities.slots[e.idx]? with
    | none => rfl
    | some sl =>
        by_cases hb : (sl.alive && sl.ver == e.ver) = true
        · simp only [hb, if_true]
          exact List.getElem?_set_ne (fun hh => hie hh.symm)
        · simp [hb]

/-- A dead slot means the handle with that index and the slot's state
is reported not alive. -/
theorem Entities.is_alive_eq_false_of_dead (s : Entities) (e : Entity)
    (sl : EntitySlot) (h : s.slots[e.idx]? = some sl) (hd : sl.alive = false) :
    s.is_alive e = false := by
  unfold Entities.is_alive
  rw [h]
  simp [hd]

/-- Along a batch of staged destructions, every slot keeps its
generation and its existence; it can only be switched from live to
dead, never resurrected. -/
theorem destroyFold_slot (pend : List Entity) :
    ∀ (w : WorldModel) (i : Nat) (sl : EntitySlot),
      w.entities.slots[i]? = some sl →
      ∃ sl' : EntitySlot,
        (pend.foldl destroyStep w).entities.slots[i]? = some sl' ∧
        sl'.ver = sl.ver ∧
        (sl'.alive = true → sl.alive = true) := by
  induction pend with
  | nil =>
      intro w i sl h
      exact ⟨sl, h, rfl, fun hh => hh⟩
  | cons p rest ih =>
      intro w i sl h
      simp only [List.foldl_cons]
      have hstep := destroyStep_slots_get w p i
      rw [h] at hstep
      simp only [Option.map_some'] at hstep
      by_cases hc : i = p.idx ∧ sl.alive = true ∧ sl.ver = p.ver
      · rw [if_pos hc] at hstep
        rcases ih (destroyStep w p) i _ hstep with ⟨sl', h1, h2, h3⟩
        refine ⟨sl', h1, h2, fun hl => ?_⟩
        exact absurd (h3 hl) (by simp)
      · rw [if_neg hc] at hstep
        exact ih (destroyStep w p) i sl hstep

/-- When a handle with the slot's current generation is in the staged
destruction batch, after the batch the slot is dead and still carries
that generation. -/
theorem destroyFold_kills (pend : List Entity) :
    ∀ (w : WorldModel) (e : Entity) (sl : EntitySlot),
      e ∈ pend →
      w.entities.slots[e.idx]? = some sl → sl.ver = e.ver →
      ∃ sl' : EntitySlot,
        (pend.foldl destroyStep w).entities.slots[e.idx]? = some sl' ∧
        sl'.ver = e.ver ∧ sl'.alive = false := by
  induction pend with
  | nil =>
      intro _ _ _ hmem
      cases hmem
  | cons p rest ih =>
      intro w e sl hmem h hver
      simp only [List.foldl_cons]
      have hstep := destroyStep_slots_get w p e.idx
      rw [h] at hstep
      simp only [Option.map_some'] at hstep
      by_cases halive : sl.alive = true
      · by_cases hpe : p = e
        · subst hpe
          rw [if_pos ⟨rfl, halive, hver⟩] at hstep
          rcases destroyFold_slot rest (destroyStep w p) p.idx _ hstep with ⟨sl', h1, h2, h3⟩
          refine ⟨sl', h1, h2.trans hver, ?_⟩
          cases hsl' : sl'.alive
          · rfl
          · exact absurd (h3 hsl') (by simp)
        · have hmem' : e ∈ rest := by
            rcases List.mem_cons.mp hmem with hep | hr
            · exact absurd hep.symm hpe
            · exact hr
          by_cases hc : e.idx = p.idx ∧ sl.alive = true ∧ sl.ver = p.ver
          · exfalso
            apply hpe
            cases p with
            | mk pidx pver =>
                cases e with
                | mk eidx ever =>
                    simp only [Entity.mk.injEq]
                    exact ⟨hc.1.symm, hc.2.2.symm.trans hver⟩
          · rw [if_neg hc] at hstep
            exact ih (destroyStep w p) e sl hmem' hstep hver
      · rw [if_neg (fun hcontra => halive hcontra.2.1)] at hstep
        rcases destroyFold_slot rest (destroyStep w p) e.idx sl hstep with ⟨sl', h1, h2, h3⟩
        refine ⟨sl', h1, h2.trans hver, ?_⟩
        cases hsl' : sl'.alive
        · rfl
        · exact absurd (h3 hsl') (fun hh => halive hh)

/-- A query returns an entity exactly when some archetype's entity
column holds it. -/
theorem queryReturns_iff (w : WorldModel) (e : Entity) :
    w.queryReturns e = true ↔ ∃ ms ∈ w.archMembers, e ∈ ms := by
  unfold WorldModel.queryReturns
  simp

/-- A query misses an entity exactly when no archetype's entity column
holds it. -/
theorem queryReturns_false_iff (w : WorldModel) (e : Entity) :
    w.queryReturns e = false ↔ ∀ ms ∈ w.archMembers, e ∉ ms := by
  unfold WorldModel.queryReturns
  simp

/-- Applying a staged destruction never makes a query start returning
an entity it did not return before. -/
theorem destroyStep_query_mono (w : WorldModel) (p e : Entity)
    (h : w.queryReturns e = false) : (destroyStep w p).queryReturns e = false := by
  rw [queryReturns_false_iff] at h ⊢
  unfold destroyStep
  cases hs : w.entities.slots[p.idx]? with
  | none => exact h
  | some sl =>
      by_cases hb : (sl.alive && sl.ver == p.ver) = true
      · simp only [hb, if_true]
        intro ms' hms'
        rcases List.mem_map.mp hms' with ⟨ms, hms, rfl⟩
        intro hmem
        exact h ms hms (List.mem_filter.mp hmem).1
      · simp only [hb, if_false]
        exact h

/-- Applying the staged destruction of a live entity removes it from
every archetype's entity column. -/
theorem destroyStep_kills_member (w : WorldModel) (e : Entity)
    (h : w.entities.is_alive e = true) :
    (destroyStep w e).queryReturns e = false := by
  rcases (Entities.is_alive_iff _ _).mp h with ⟨sl, hs, ha, hv⟩
  unfold destroyStep
  rw [hs]
  have hb : (sl.alive && sl.ver == e.ver) = true := by
    rw [Bool.and_eq_true, beq_iff_eq]; exact ⟨ha, hv⟩
  simp only [hb, if_true]
  rw [queryReturns_false_iff]
  intro ms' hms'
  rcases List.mem_map.mp hms' with ⟨ms, _, rfl⟩
  intro hmem
  have := (List.mem_filter.mp hmem).2
  simp at this

/-- A batch of staged destructions never makes a query start returning
an entity. -/
theorem destroyFold_query_mono (pend : List Entity) :
    ∀ (w : WorldModel) (e : Entity),
      w.queryReturns e = false →
      (pend.foldl destroyStep w).queryReturns e = false := by
  induction pend with
  | nil => intro w e h; exact h
  | cons p rest ih =>
      intro w e h
      simp only [List.foldl_cons]
      exact ih (destroyStep w p) e (destroyStep_query_mono w p e h)

/-- Applying the staged destruction of one entity leaves every other
live handle alive. -/
theorem destroyStep_alive_other (w : WorldModel) (p e : Entity) (hne : p ≠ e)
    (h : w.entities.is_alive e = true) :
    (destroyStep w p).entities.is_alive e = true := by
  rcases (Entities.is_alive_iff _ _).mp h with ⟨sl, hs, ha, hv⟩
  have hstep := destroyStep_slots_get w p e.idx
  rw [hs] at hstep
  simp only [Option.map_some'] at hstep
  by_cases hc : e.idx = p.idx ∧ sl.alive = true ∧ sl.ver = p.ver
  · exfalso
    apply hne
    cases p with
    | mk pidx pver =>
        cases e with
        | mk eidx ever =>
            simp only [Entity.mk.injEq]
            exact ⟨hc.1.symm, hc.2.2.symm.trans hv⟩
  · rw [if_neg hc] at hstep
    exact (Entities.is_alive_iff _ _).mpr ⟨sl, hstep, ha, hv⟩

/-- After the staged destruction batch containing a live entity is
applied, no archetype's entity column holds that entity. -/
theorem destroyFold_removes (pend : List Entity) :
    ∀ (w : WorldModel) (e : Entity),
      w.entities.is_alive e = true → e ∈ pend →
      (pend.foldl destroyStep w).queryReturns e = false := by
  induction pend with
  | nil =>
      intro _ _ _ hmem
      cases hmem
  | cons p rest ih =>
      intro w e halive hmem
      simp only [List.foldl_cons]
      by_cases hpe : p = e
      · subst hpe
        exact destroyFold_query_mono rest (destroyStep w p) p
          (destroyStep_kills_member w p halive)
      · have hmem' : e ∈ rest := by
          rcases List.mem_cons.mp hmem with hep | hr
          · exact absurd hep.symm hpe
          · exact hr
        exact ih (destroyStep w p) e (destroyStep_alive_other w p e hpe halive) hmem'

/-- `process_entities` unfolded: staged creations are inserted into the
empty archetype, then the staged destruction batch is applied. -/
theorem WorldModel.process_eq (w : WorldModel) :
    w.process = (w.entities.pending_destroy).foldl destroyStep w.processBase := rfl

/-- The creation phase of processing does not touch the slots. -/
theorem processBase_slots (w : WorldModel) :
    w.processBase.entities.slots = w.entities.slots := rfl

/-- The creation phase of processing does not affect liveness. -/
theorem processBase_is_alive (w : WorldModel) (e : Entity) :
    w.processBase.entities.is_alive e = w.entities.is_alive e := rfl

/-- `destroy` only stages; the slots are untouched. -/
theorem destroy_slots (w : WorldModel) (e : Entity) :
    (w.destroy e).entities.slots = w.entities.slots := rfl

/-- `destroy` only stages; liveness is untouched. -/
theorem destroy_is_alive (w : WorldModel) (e p : Entity) :
    (w.destroy e).entities.is_alive p = w.entities.is_alive p := rfl

/-- `destroy` appends the handle to the staged-destruction queue. -/
theorem destroy_pending (w : WorldModel) (e : Entity) :
    (w.destroy e).entities.pending_destroy =
      w.entities.pending_destroy ++ [e] := rfl


/-- C4: destroying a live entity during a dispatch is deferred — after
`destroy(e)` but before `process_entities`, `is_alive(e)` is still true
and queries still return `e`; after `process_entities` returns,
`is_alive(e)` is false and no query returns `e`. -/
theorem C4_destroy_is_deferred (w : WorldModel) (e : Entity)
    (halive : w.entities.is_alive e = true)
    (hquery : w.queryReturns e = true) :
    ((w.destroy e).entities.is_alive e = true) ∧
    ((w.destroy e).queryReturns e = true) ∧
    (((w.destroy e).process).entities.is_alive e = false) ∧
    (((w.destroy e).process).queryReturns e = false) := by
  have hmem : e ∈ (w.destroy e).entities.pending_destroy := by
    rw [destroy_pending]
    simp
  refine ⟨halive, hquery, ?_, ?_⟩
  · rw [WorldModel.process_eq]
    rcases (Entities.is_alive_iff _ _).mp halive with ⟨sl, hs, _, hv⟩
    have hs' : (w.destroy e).processBase.entities.slots[e.idx]? = some sl := by
      rw [processBase_slots, destroy_slots]
      exact hs
    rcases destroyFold_kills _ _ e sl hmem hs' hv with ⟨sl', h1, _, h3⟩
    exact Entities.is_alive_eq_false_of_dead _ e sl' h1 h3
  · rw [WorldModel.process_eq]
    apply destroyFold_removes
    · rw [processBase_is_alive, destroy_is_alive]
      exact halive
    · exact hmem

/-- Witness for C4 at a concrete trace: create an entity, process, then
destroy it; the handle dies only at the processing step. -/
theorem C4_destroy_is_deferred_witness :
    ((runWorldOps [WorldOp.create, WorldOp.process] initWorld).entities.is_alive
        ⟨0, 1⟩ = true) ∧
    ((((runWorldOps [WorldOp.create, WorldOp.process] initWorld).destroy
        ⟨0, 1⟩).process).entities.is_alive ⟨0, 1⟩ = false) :=
  ⟨by decide,
    (C4_destroy_is_deferred (runWorldOps [WorldOp.create, WorldOp.process] initWorld)
      ⟨0, 1⟩ (by decide) (by decide)).2.2.1⟩

/-- A stale handle is reported not alive. -/
theorem staleFor_not_alive (w : WorldModel) (e : Entity) (h : staleFor w e) :
    w.entities.is_alive e = false := by
  rcases h with ⟨sl, hs, _, himp⟩
  unfold Entities.is_alive
  rw [hs]
  by_cases hv : sl.ver = e.ver
  · simp [himp hv]
  · simp [hv]

/-- Slot contents after `create` when the free list is nonempty. -/
theorem create_slots_cons (w : WorldModel) (i : Nat) (rest : List Nat)
    (hf : w.entities.free = i :: rest) :
    (w.create).2.entities.slots =
      w.entities.slots.set i
        ⟨(w.entities.slots.getD i ⟨0, false, 0⟩).ver + 1, true, 0⟩ := by
  unfold WorldModel.create
  rw [hf]

/-- Slot contents after `create` when the free list is empty. -/
theorem create_slots_nil (w : WorldModel) (hf : w.entities.free = []) :
    (w.create).2.entities.slots = w.entities.slots ++ [⟨1, true, 0⟩] := by
  unfold WorldModel.create
  rw [hf]

/-- Once a handle is stale it remains stale through any single
registry operation: slots only gain strictly larger generations or
lose liveness. -/
theorem staleFor_apply (op : WorldOp) (w : WorldModel) (e : Entity)
    (h : staleFor w e) : staleFor (op.apply w) e := by
  rcases h with ⟨sl, hs, hle, himp⟩
  cases op with
  | create =>
      show staleFor (w.create).2 e
      cases hf : w.entities.free with
      | nil =>
          refine ⟨sl, ?_, hle, himp⟩
          rw [create_slots_nil w hf,
            List.getElem?_append_left (List.getElem?_eq_some_iff.mp hs).1]
          exact hs
      | cons i rest =>
          have hslots := create_slots_cons w i rest hf
          by_cases hie : i = e.idx
          · have hs' : w.entities.slots[i]? = some sl := by
              rw [hie]
              exact hs
            have hgetD : w.entities.slots.getD i ⟨0, false, 0⟩ = sl := by
              rw [List.getD_eq_getElem?_getD, hs']
              rfl
            refine ⟨⟨sl.ver + 1, true, 0⟩, ?_, ?_, ?_⟩
            · rw [hslots, hgetD, ← hie]
              exact List.getElem?_set_self (List.getElem?_eq_some_iff.mp hs').1
            · show e.ver ≤ sl.ver + 1
              omega
            · intro hveq
              exfalso
              have hv' : sl.ver + 1 = e.ver := hveq
              omega
          · refine ⟨sl, ?_, hle, himp⟩
            rw [hslots, List.getElem?_set_ne hie]
            exact hs
  | destroy p =>
      exact ⟨sl, hs, hle, himp⟩
  | process =>
      show staleFor w.process e
      rw [WorldModel.process_eq]
      have hs' : w.processBase.entities.slots[e.idx]? = some sl := by
        rw [processBase_slots]
        exact hs
      rcases destroyFold_slot (w.entities.pending_destroy) _ e.idx sl hs'
        with ⟨sl', h1, h2, h3⟩
      refine ⟨sl', h1, ?_, ?_⟩
      · rw [h2]
        exact hle
      · intro hveq
        cases hsl' : sl'.alive
        · rfl
        · exact absurd (himp (h2.symm.trans hveq)) (by simp [h3 hsl'])

/-- Once a handle is stale it remains stale through any trace of
registry operations. -/
theorem staleFor_runOps (ops : List WorldOp) :
    ∀ (w : WorldModel) (e : Entity), staleFor w e →
      staleFor (runWorldOps ops w) e := by
  induction ops with
  | nil =>
      intro w e h
      exact h
  | cons op rest ih =>
      intro w e h
      show staleFor (runWorldOps rest (op.apply w)) e
      exact ih _ e (staleFor_apply op w e h)

/-- Destroying a live entity and processing leaves its handle stale. -/
theorem staleFor_after_destroy_process (w : WorldModel) (e : Entity)
    (h : w.entities.is_alive e = true) : staleFor ((w.destroy e).process) e := by
  rcases (Entities.is_alive_iff _ _).mp h with ⟨sl, hs, _, hv⟩
  rw [WorldModel.process_eq]
  have hmem : e ∈ (w.destroy e).entities.pending_destroy := by
    rw [destroy_pending]
    simp
  have hs' : (w.destroy e).processBase.entities.slots[e.idx]? = some sl := by
    rw [processBase_slots, destroy_slots]
    exact hs
  rcases destroyFold_kills _ _ e sl hmem hs' hv with ⟨sl', h1, h2, h3⟩
  exact ⟨sl', h1, le_of_eq h2.symm, fun _ => h3⟩

/-- C3: across every trace of `create`/`destroy` with processing steps
interleaved arbitrarily — (i) at any moment an index is associated with
at most one live generation; (ii) `create` reusing a freed index issues
a strictly incremented generation for that index; (iii) once a live
entity is destroyed and processed, its stale handle is never again
reported alive, whatever operations follow (including reuse of its
index by later `create` calls). -/
theorem C3_generation_uniqueness (ops1 ops2 : List WorldOp) (e : Entity)
    (h : (runWorldOps ops1 initWorld).entities.is_alive e = true) :
    (∀ (w : WorldModel) (e1 e2 : Entity),
        w.entities.is_alive e1 = true → w.entities.is_alive e2 = true →
        e1.idx = e2.idx → e1.ver = e2.ver) ∧
    (∀ (w : WorldModel) (i : Nat) (rest : List Nat),
        w.entities.free = i :: rest →
        (w.create).1 = ⟨i, (w.entities.slots.getD i ⟨0, false, 0⟩).ver + 1⟩) ∧
    ((runWorldOps ops2
        (((runWorldOps ops1 initWorld).destroy e).process)).entities.is_alive e
      = false) := by
  refine ⟨?_, ?_, ?_⟩
  · intro w e1 e2 h1 h2 hidx
    rcases (Entities.is_alive_iff _ _).mp h1 with ⟨sl1, hs1, _, hv1⟩
    rcases (Entities.is_alive_iff _ _).mp h2 with ⟨sl2, hs2, _, hv2⟩
    rw [hidx] at hs1
    rw [hs1] at hs2
    cases hs2
    rw [← hv1, ← hv2]
  · intro w i rest hf
    unfold WorldModel.create
    rw [hf]
  · exact staleFor_not_alive _ e
      (staleFor_runOps ops2 _ e (staleFor_after_destroy_process _ e h))

/-- Witness for C3 at a concrete trace: entity (0,1) is created and
alive; destroying it, processing, and then creating again (which
reuses index 0 with generation 2) leaves the stale handle dead. -/
theorem C3_generation_uniqueness_witness :
    ((runWorldOps [WorldOp.create] initWorld).entities.is_alive ⟨0, 1⟩ = true) ∧
    ((runWorldOps [WorldOp.process, WorldOp.create]
        (((runWorldOps [WorldOp.create] initWorld).destroy
          ⟨0, 1⟩).process)).entities.is_alive ⟨0, 1⟩ = false) :=
  ⟨by decide,
    (C3_generation_uniqueness [WorldOp.create] [WorldOp.process, WorldOp.create]
      ⟨0, 1⟩ (by decide)).2.2⟩

/-- `swapRemove` at an in-range index: explicit result and length. -/
theorem swapRemove_eq {α : Type} (l : List α) (i : Nat) (x last : α)
    (hx : l[i]? = some x) (hlast : l[l.length - 1]? = some last) :
    swapRemove l i = some (x, l.dropLast.set i last) := by
  unfold swapRemove
  rw [hx, hlast]

/-- `swapRemove` at an in-range index succeeds, removing the element
there and placing the previously last element in its position; the
result is one shorter. -/
theorem swapRemove_some {α : Type} (l : List α) (i : Nat) (h : i < l.length) :
    ∃ (x last : α), l[i]? = some x ∧ l[l.length - 1]? = some last ∧
      swapRemove l i = some (x, l.dropLast.set i last) ∧
      (l.dropLast.set i last).length = l.length - 1 := by
  have h1 : l.length - 1 < l.length := by omega
  refine ⟨l[i], l[l.length - 1], List.getElem?_eq_getElem h,
    List.getElem?_eq_getElem h1, ?_, ?_⟩
  · exact swapRemove_eq l i _ _ (List.getElem?_eq_getElem h) (List.getElem?_eq_getElem h1)
  · simp

/-- `remove` at an in-range row, written out. -/
theorem Archetype.remove_eq (a : Archetype) (i : Nat) (x m : Entity)
    (hx : a.entities[i]? = some x)
    (hm : a.entities[a.entities.length - 1]? = some m) :
    a.remove i = some
      (a.columns.filterMap (fun tc => (tc.2[i]?).map (fun v => (tc.1, v))),
       if i + 1 < a.entities.length then some m else none,
       { types := a.types,
         entities := a.entities.dropLast.set i m,
         columns := a.columns.map (fun tc =>
           (tc.1, match swapRemove tc.2 i with
                  | some (_, c) => c
                  | none => tc.2)) }) := by
  unfold Archetype.remove
  rw [swapRemove_eq a.entities i x m hx hm, hm]

/-- When every column covers row `i`, the removed row read by
`filterMap` is just the per-column entry at `i`. -/
theorem removed_row_eq_map (cols : List (Nat × List Nat)) (i : Nat)
    (h : ∀ tc ∈ cols, i < (tc.2 : List Nat).length) :
    cols.filterMap (fun tc => (tc.2[i]?).map (fun v => (tc.1, v))) =
      cols.map (fun tc => (tc.1, (tc.2[i]?).getD 0)) := by
  induction cols with
  | nil => rfl
  | cons c rest ih =>
      have hc : i < c.2.length := h c (List.mem_cons_self c rest)
      have hv : c.2[i]? = some c.2[i] := List.getElem?_eq_getElem hc
      simp only [List.filterMap_cons, List.map_cons, hv, Option.map_some']
      rw [ih (fun tc htc => h tc (List.mem_cons_of_mem c htc))]
      rfl

/-- Swap-removing row `i` from every column keeps the column keys and
shortens every column by one. -/
theorem remove_cols_facts (cols : List (Nat × List Nat)) (i L : Nat)
    (hL : ∀ tc ∈ cols, (tc.2 : List Nat).length = L) (hi : i < L) :
    ((cols.map (fun tc =>
        (tc.1, match swapRemove tc.2 i with
               | some (_, c) => c
               | none => tc.2))).map Prod.fst = cols.map Prod.fst) ∧
    (∀ tc ∈ cols.map (fun tc =>
        (tc.1, match swapRemove tc.2 i with
               | some (_, c) => c
               | none => tc.2)), (tc.2 : List Nat).length = L - 1) := by
  constructor
  · rw [List.map_map]
    rfl
  · intro tc htc
    rcases List.mem_map.mp htc with ⟨c, hc, rfl⟩
    have hlen : c.2.length = L := hL c hc
    have hi' : i < c.2.length := by omega
    rcases swapRemove_some c.2 i hi' with ⟨x, last, _, _, heq, hlen'⟩
    simp only [heq]
    rw [hlen']
    omega

/-- Updating the moved entity's row pointer makes its lookup report
the vacated row. -/
theorem lookupRow_update_self (ptrs : List (Entity × Nat)) (m : Entity) (i r0 : Nat)
    (h : lookupRow ptrs m = some r0) :
    lookupRow (updateRowPointer ptrs m i) m = some i := by
  induction ptrs with
  | nil => cases h
  | cons p rest ih =>
      by_cases hp : p.1 = m
      · show lookupRow ((if p.1 = m then (p.1, i) else p) ::
          updateRowPointer rest m i) m = some i
        rw [if_pos hp]
        show (if (p.1, i).1 = m then some (p.1, i).2 else _) = some i
        rw [if_pos hp]
      · have h' : lookupRow rest m = some r0 := by
          unfold lookupRow at h
          rwa [if_neg hp] at h
        show lookupRow ((if p.1 = m then (p.1, i) else p) ::
          updateRowPointer rest m i) m = some i
        rw [if_neg hp]
        show (if p.1 = m then some p.2 else lookupRow (updateRowPointer rest m i) m) = some i
        rw [if_neg hp]
        exact ih h'

/-- C5: removing a non-last row from an archetype with `n + 1` rows
returns that row's components, moves the previously last row's entity
into the vacated index (swap-remove), leaves every column of the
archetype at length `n`, and reports the moved entity so that the
registry's row pointer for it can be (and, once updated, is) set to
the vacated index. -/
theorem C5_remove_relocates_last (a : Archetype) (i n : Nat)
    (ptrs : List (Entity × Nat))
    (hwf : a.wf) (hlen : a.entities.length = n + 1) (hi : i < n) :
    ∃ (m : Entity) (a' : Archetype),
      a.entities[n]? = some m ∧
      a.remove i = some
        (a.columns.map (fun tc => (tc.1, (tc.2[i]?).getD 0)), some m, a') ∧
      a'.entities[i]? = some m ∧
      a'.entities.length = n ∧
      a'.columns.map Prod.fst = a.types ∧
      (∀ tc ∈ a'.columns, (tc.2 : List Nat).length = n) ∧
      (∀ r0 : Nat, lookupRow ptrs m = some r0 →
        lookupRow (updateRowPointer ptrs m i) m = some i) := by
  obtain ⟨hkeys, hcols, _, _⟩ := hwf
  have hi1 : i < a.entities.length := by omega
  have hn : n < a.entities.length := by omega
  have hm : a.entities[a.entities.length - 1]? = some a.entities[n] := by
    have hn1 : a.entities.length - 1 = n := by omega
    rw [hn1]
    exact List.getElem?_eq_getElem hn
  have hrem := Archetype.remove_eq a i a.entities[i] a.entities[n]
      (List.getElem?_eq_getElem hi1) hm
  rw [removed_row_eq_map a.columns i
      (fun tc htc => by rw [hcols tc htc]; omega)] at hrem
  rw [if_pos (by omega : i + 1 < a.entities.length)] at hrem
  have hfacts := remove_cols_facts a.columns i (n + 1)
      (fun tc htc => by rw [hcols tc htc, hlen]) (by omega)
  refine ⟨a.entities[n],
    { types := a.types,
      entities := a.entities.dropLast.set i a.entities[n],
      columns := a.columns.map (fun tc =>
        (tc.1, match swapRemove tc.2 i with
               | some (_, c) => c
               | none => tc.2)) },
    List.getElem?_eq_getElem hn, hrem, ?_, ?_, ?_, ?_, ?_⟩
  · have hid : i < (a.entities.dropLast).length := by
      rw [List.length_dropLast]
      omega
    exact List.getElem?_set_self hid
  · rw [List.length_set, List.length_dropLast]
    omega
  · rw [hfacts.1]
    exact hkeys
  · intro tc htc
    have := hfacts.2 tc htc
    omega
  · intro r0 hr
    exact lookupRow_update_self ptrs _ i r0 hr

/-- Witness for C5 at a concrete archetype: two rows, two components,
removing row 0 relocates row 1's entity into row 0. -/
theorem C5_remove_relocates_last_witness :
    ((⟨[1, 2], [⟨0, 1⟩, ⟨1, 1⟩], [(1, [10, 11]), (2, [20, 21])]⟩ : Archetype).wf) ∧
    (∃ (m : Entity) (a' : Archetype),
      (⟨[1, 2], [⟨0, 1⟩, ⟨1, 1⟩], [(1, [10, 11]), (2, [20, 21])]⟩ :
          Archetype).entities[1]? = some m ∧
      (⟨[1, 2], [⟨0, 1⟩, ⟨1, 1⟩], [(1, [10, 11]), (2, [20, 21])]⟩ :
          Archetype).remove 0 = some
        ((⟨[1, 2], [⟨0, 1⟩, ⟨1, 1⟩], [(1, [10, 11]), (2, [20, 21])]⟩ :
          Archetype).columns.map (fun tc => (tc.1, (tc.2[0]?).getD 0)), some m, a') ∧
      a'.entities[0]? = some m ∧
      a'.entities.length = 1 ∧
      a'.columns.map Prod.fst =
        (⟨[1, 2], [⟨0, 1⟩, ⟨1, 1⟩], [(1, [10, 11]), (2, [20, 21])]⟩ :
          Archetype).types ∧
      (∀ tc ∈ a'.columns, (tc.2 : List Nat).length = 1) ∧
      (∀ r0 : Nat, lookupRow [(⟨1, 1⟩, 1), (⟨0, 1⟩, 0)] m = some r0 →
        lookupRow (updateRowPointer [(⟨1, 1⟩, 1), (⟨0, 1⟩, 0)] m 0) m = some 0)) :=
  ⟨by decide,
    C5_remove_relocates_last
      ⟨[1, 2], [⟨0, 1⟩, ⟨1, 1⟩], [(1, [10, 11]), (2, [20, 21])]⟩ 0 1
      [(⟨1, 1⟩, 1), (⟨0, 1⟩, 0)] (by decide) (by decide) (by decide)⟩

/-- Association lookup succeeds exactly on the stored keys. -/
theorem alookup_isSome_iff {β : Type} (t : Nat) (l : List (Nat × β)) :
    (alookup t l).isSome = true ↔ t ∈ l.map Prod.fst := by
  induction l with
  | nil => simp [alookup]
  | cons c rest ih =>
      by_cases hc : c.1 = t
      · simp [alookup, hc]
      · simp [alookup, hc, ih, Ne.symm hc]

/-- A successful association lookup returns a stored entry. -/
theorem alookup_mem {β : Type} (t : Nat) (l : List (Nat × β)) (v : β)
    (h : alookup t l = some v) : (t, v) ∈ l := by
  induction l with
  | nil => cases h
  | cons c rest ih =>
      by_cases hc : c.1 = t
      · unfold alookup at h
        rw [if_pos hc] at h
        cases h
        rw [← hc]
        exact List.mem_cons_self c rest
      · unfold alookup at h
        rw [if_neg hc] at h
        exact List.mem_cons_of_mem c (ih h)

/-- Lookup distributes over append, preferring the first list. -/
theorem alookup_append {β : Type} (t : Nat) (l1 l2 : List (Nat × β)) :
    alookup t (l1 ++ l2) =
      match alookup t l1 with
      | some v => some v
      | none => alookup t l2 := by
  induction l1 with
  | nil => rfl
  | cons c rest ih =>
      by_cases hc : c.1 = t
      · simp [alookup, hc]
      · simp [alookup, hc, ih]

/-- Filtering entries by a key predicate the looked-up key satisfies
does not change the lookup. -/
theorem alookup_filter_key {β : Type} (t : Nat) (l : List (Nat × β))
    (P : Nat → Bool) (hP : P t = true) :
    alookup t (l.filter (fun c => P c.1)) = alookup t l := by
  induction l with
  | nil => rfl
  | cons c rest ih =>
      by_cases hc : c.1 = t
      · rw [List.filter_cons, if_pos (by rw [hc]; exact hP)]
        have h1 : alookup t (c :: List.filter (fun c => P c.1) rest) = some c.2 := by
          unfold alookup
          rw [if_pos hc]
        have h2 : alookup t (c :: rest) = some c.2 := by
          unfold alookup
          rw [if_pos hc]
        rw [h1, h2]
      · rw [List.filter_cons]
        have h2 : alookup t (c :: rest) = alookup t rest := by
          show (if c.1 = t then some c.2 else alookup t rest) = alookup t rest
          rw [if_neg hc]
        by_cases hPc : P c.1 = true
        · rw [if_pos hPc]
          have h1 : alookup t (c :: List.filter (fun c => P c.1) rest) =
              alookup t (List.filter (fun c => P c.1) rest) := by
            show (if c.1 = t then some c.2 else alookup t (List.filter (fun c => P c.1) rest)) =
              alookup t (List.filter (fun c => P c.1) rest)
            rw [if_neg hc]
          rw [h1, h2]
          exact ih
        · rw [if_neg hPc, h2]
          exact ih

/-- Lookup through a value-transforming map over the entries. -/
theorem alookup_map_value {β γ : Type} (t : Nat) (l : List (Nat × β))
    (f : Nat → β → γ) :
    alookup t (l.map (fun p => (p.1, f p.1 p.2))) = (alookup t l).map (f t) := by
  induction l with
  | nil => rfl
  | cons c rest ih =>
      by_cases hc : c.1 = t
      · unfold alookup
        simp only [List.map_cons]
        rw [if_pos hc, if_pos hc, hc]
        rfl
      · unfold alookup
        simp only [List.map_cons]
        rw [if_neg hc, if_neg hc]
        exact ih

/-- A successful entity-index search returns the entity's position. -/
theorem idxOfE_getElem (e : Entity) (l : List Entity) (i : Nat)
    (h : idxOfE e l = some i) : l[i]? = some e := by
  induction l generalizing i with
  | nil => cases h
  | cons x rest ih =>
      by_cases hx : x = e
      · unfold idxOfE at h
        rw [if_pos hx] at h
        cases h
        rw [hx]
        exact List.getElem?_cons_zero
      · unfold idxOfE at h
        rw [if_neg hx] at h
        cases hj : idxOfE e rest with
        | none => rw [hj] at h; cases h
        | some j =>
            rw [hj] at h
            cases h
            simpa using ih j hj

/-- A present entity is found by the index search. -/
theorem idxOfE_of_mem (e : Entity) (l : List Entity) (h : e ∈ l) :
    ∃ i : Nat, idxOfE e l = some i := by
  induction l with
  | nil => cases h
  | cons x rest ih =>
      by_cases hx : x = e
      · exact ⟨0, by unfold idxOfE; rw [if_pos hx]⟩
      · have hr : e ∈ rest := by
          rcases List.mem_cons.mp h with hex | hr
          · exact absurd hex.symm hx
          · exact hr
        rcases ih hr with ⟨j, hj⟩
        exact ⟨j + 1, by unfold idxOfE; rw [if_neg hx, hj]; rfl⟩

/-- Appending a fresh entity places it at the old length. -/
theorem idxOfE_append_self (e : Entity) (l : List Entity) (h : e ∉ l) :
    idxOfE e (l ++ [e]) = some l.length := by
  induction l with
  | nil => simp [idxOfE]
  | cons x rest ih =>
      have hx : ¬(x = e) := fun hh => h (hh ▸ List.mem_cons_self x rest)
      have hr : e ∉ rest := fun hh => h (List.mem_cons_of_mem x hh)
      show idxOfE e (x :: (rest ++ [e])) = some (rest.length + 1)
      unfold idxOfE
      rw [if_neg hx, ih hr]
      rfl

/-- Swap-removing the row of an entity that appears exactly once (the
column is duplicate-free) leaves a column without that entity. -/
theorem not_mem_swapRemove (l : List Entity) (i : Nat) (e m : Entity)
    (hnd : l.Nodup) (he : l[i]? = some e) (hm : l[l.length - 1]? = some m) :
    e ∉ l.dropLast.set i m := by
  intro hmem
  have hi : i < l.length := (List.getElem?_eq_some_iff.mp he).1
  rcases List.mem_iff_getElem?.mp hmem with ⟨j, hj⟩
  have hjlen : j < (l.dropLast.set i m).length :=
    (List.getElem?_eq_some_iff.mp hj).1
  have hjlen' : j < l.length - 1 := by
    rw [List.length_set, List.length_dropLast] at hjlen
    omega
  by_cases hij : j = i
  · subst hij
    have hset : (l.dropLast.set j m)[j]? = some m := by
      apply List.getElem?_set_self
      rw [List.length_dropLast]
      exact hjlen'
    rw [hset] at hj
    cases hj
    have hji : j = l.length - 1 :=
      List.getElem?_inj (by omega) hnd (by rw [he, hm])
    omega
  · have hne : (l.dropLast.set i m)[j]? = l.dropLast[j]? :=
      List.getElem?_set_ne (fun hh => hij hh.symm)
    rw [hne] at hj
    have htake : l.dropLast[j]? = l[j]? := by
      rw [List.dropLast_eq_take]
      exact List.getElem?_take_of_lt hjlen'
    rw [htake] at hj
    exact hij (List.getElem?_inj (by omega) hnd (by rw [hj, he]))

/-- `insert` when the supplied components cover the type set, written
out. -/
theorem Archetype.insert_eq (a : Archetype) (e : Entity)
    (comps : List (Nat × Nat))
    (h : a.types.all (fun t => (alookup t comps).isSome) = true) :
    a.insert e comps = some
      ({ types := a.types,
         entities := a.entities ++ [e],
         columns := a.columns.map (fun tc =>
           (tc.1, tc.2 ++ [(alookup tc.1 comps).getD 0])) },
       a.entities.length) := by
  unfold Archetype.insert
  rw [if_pos h]

/-- `migrate`, written out when the entity is found, removal succeeds,
and the destination insert's coverage condition holds. -/
theorem Archetype.migrate_eq (src dst : Archetype) (e : Entity)
    (added : List (Nat × Nat)) (removed : List Nat) (i : Nat)
    (comps : List (Nat × Nat)) (moved : Option Entity) (src' : Archetype)
    (hidx : idxOfE e src.entities = some i)
    (hrem : src.remove i = some (comps, moved, src'))
    (hcond : dst.types.all (fun t =>
      (alookup t ((comps.filter (fun c => !(removed.contains c.1))) ++ added)).isSome)
      = true) :
    Archetype.migrate e src dst added removed = some
      (src',
       { types := dst.types,
         entities := dst.entities ++ [e],
         columns := dst.columns.map (fun tc =>
           (tc.1, tc.2 ++ [(alookup tc.1
             ((comps.filter (fun c => !(removed.contains c.1))) ++ added)).getD 0])) },
       moved, dst.entities.length) := by
  unfold Archetype.migrate
  simp only [hidx, hrem, Archetype.insert_eq dst e _ hcond]

/-- C6: migrating an entity between archetypes preserves, value for
value, every component whose type is not in the removed set: the whole
migration is one pure composition of remove-from-source and
insert-into-destination (the caller sees only the final pair of
archetypes, with the entity present in the destination and absent from
the source — no partial state). -/
theorem C6_migrate_preserves_components (src dst : Archetype) (e : Entity)
    (added : List (Nat × Nat)) (removed : List Nat)
    (hsrc : src.wf) (hdst : dst.wf)
    (he : e ∈ src.entities) (hedst : e ∉ dst.entities)
    (hto : ∀ t ∈ dst.types,
      (t ∈ src.types ∧ ¬(t ∈ removed)) ∨ t ∈ added.map Prod.fst)
    (hfrom : ∀ t ∈ src.types, ¬(t ∈ removed) → t ∈ dst.types) :
    ∃ (src' dst' : Archetype) (moved : Option Entity) (row : Nat),
      Archetype.migrate e src dst added removed = some (src', dst', moved, row) ∧
      (∀ t ∈ src.types, ¬(t ∈ removed) →
        dst'.valueOf e t = src.valueOf e t) ∧
      e ∈ dst'.entities ∧ e ∉ src'.entities := by
  obtain ⟨hskeys, hscols, _, hsentnd⟩ := hsrc
  obtain ⟨hdkeys, hdcols, _, _⟩ := hdst
  rcases idxOfE_of_mem e src.entities he with ⟨i, hidx⟩
  have hei : src.entities[i]? = some e := idxOfE_getElem e src.entities i hidx
  have hilen : i < src.entities.length := (List.getElem?_eq_some_iff.mp hei).1
  have hlast := List.getElem?_eq_getElem
    (show src.entities.length - 1 < src.entities.length by omega)
  have hrem := Archetype.remove_eq src i e _ hei hlast
  rw [removed_row_eq_map src.columns i
      (fun tc htc => by rw [hscols tc htc]; omega)] at hrem
  have hcompslook : ∀ t : Nat,
      alookup t (src.columns.map (fun tc => (tc.1, (tc.2[i]?).getD 0))) =
        (alookup t src.columns).map (fun col => (col[i]?).getD 0) :=
    fun t => alookup_map_value t src.columns (fun _ col => (col[i]?).getD 0)
  have hsrcval : ∀ t ∈ src.types,
      ∃ v : Nat,
        alookup t (src.columns.map (fun tc => (tc.1, (tc.2[i]?).getD 0))) = some v ∧
        src.valueOf e t = some v := by
    intro t ht
    have htk : t ∈ src.columns.map Prod.fst := by
      rw [hskeys]
      exact ht
    obtain ⟨col, hcol⟩ :=
      Option.isSome_iff_exists.mp ((alookup_isSome_iff t src.columns).mpr htk)
    have hcollen : col.length = src.entities.length :=
      hscols (t, col) (alookup_mem t src.columns col hcol)
    have hv := List.getElem?_eq_getElem (show i < col.length by omega)
    refine ⟨(col[i]?).getD 0, ?_, ?_⟩
    · rw [hcompslook t, hcol]
      rfl
    · unfold Archetype.valueOf
      simp only [hidx, hcol]
      rw [hv]
      rfl
  have hkeptlook : ∀ t : Nat, ¬(t ∈ removed) →
      alookup t ((src.columns.map (fun tc => (tc.1, (tc.2[i]?).getD 0))).filter
        (fun c => !(removed.contains c.1))) =
      alookup t (src.columns.map (fun tc => (tc.1, (tc.2[i]?).getD 0))) := by
    intro t hnr
    exact alookup_filter_key t _ (fun k => !removed.contains k) (by simp [hnr])
  have hfull : ∀ t ∈ src.types, ¬(t ∈ removed) →
      ∃ v : Nat,
        alookup t (((src.columns.map (fun tc => (tc.1, (tc.2[i]?).getD 0))).filter
          (fun c => !(removed.contains c.1))) ++ added) = some v ∧
        src.valueOf e t = some v := by
    intro t ht hnr
    rcases hsrcval t ht with ⟨v, hlook, hval⟩
    refine ⟨v, ?_, hval⟩
    rw [alookup_append, hkeptlook t hnr, hlook]
  have hcond : dst.types.all (fun t =>
      (alookup t (((src.columns.map (fun tc => (tc.1, (tc.2[i]?).getD 0))).filter
        (fun c => !(removed.contains c.1))) ++ added)).isSome) = true := by
    rw [List.all_eq_true]
    intro t ht
    rcases hto t ht with ⟨hts, htnr⟩ | hta
    · rcases hfull t hts htnr with ⟨v, hl, _⟩
      rw [hl]
      rfl
    · rw [alookup_append]
      cases hk : alookup t ((src.columns.map (fun tc =>
          (tc.1, (tc.2[i]?).getD 0))).filter (fun c => !(removed.contains c.1))) with
      | some v => rfl
      | none => exact (alookup_isSome_iff t added).mpr hta
  have hmig := Archetype.migrate_eq src dst e added removed i _ _ _ hidx hrem hcond
  refine ⟨_, _, _, _, hmig, ?_, ?_, ?_⟩
  · intro t ht hnr
    rcases hfull t ht hnr with ⟨v, hl, hval⟩
    rw [hval]
    unfold Archetype.valueOf
    simp only [idxOfE_append_self e dst.entities hedst]
    have htd : t ∈ dst.types := hfrom t ht hnr
    have htk : t ∈ dst.columns.map Prod.fst := by
      rw [hdkeys]
      exact htd
    obtain ⟨dcol, hdcol⟩ :=
      Option.isSome_iff_exists.mp ((alookup_isSome_iff t dst.columns).mpr htk)
    have hdlen : dcol.length = dst.entities.length :=
      hdcols (t, dcol) (alookup_mem t dst.columns dcol hdcol)
    have hmap := alookup_map_value t dst.columns (fun k col =>
      col ++ [(alookup k (((src.columns.map (fun tc =>
        (tc.1, (tc.2[i]?).getD 0))).filter
        (fun c => !(removed.contains c.1))) ++ added)).getD 0])
    simp only [hmap, hdcol, Option.map_some']
    rw [List.getElem?_append_right (by omega : dcol.length ≤ dst.entities.length)]
    have hz : dst.entities.length - dcol.length = 0 := by omega
    rw [hz, hl]
    rfl
  · exact List.mem_append_right _ (List.mem_singleton.mpr rfl)
  · exact not_mem_swapRemove src.entities i e _ hsentnd hei hlast

/-- Witness for C6 at a concrete migration: entity (0,1) moves from an
archetype with components {1, 2} to one with {1, 3}, removing 2 and
adding 3; component 1's value is preserved. -/
theorem C6_migrate_preserves_components_witness :
    ((⟨[1, 2], [⟨0, 1⟩], [(1, [10]), (2, [20])]⟩ : Archetype).wf) ∧
    ((⟨[1, 3], [], [(1, []), (3, [])]⟩ : Archetype).wf) ∧
    (∃ (src' dst' : Archetype) (moved : Option Entity) (row : Nat),
      Archetype.migrate ⟨0, 1⟩ ⟨[1, 2], [⟨0, 1⟩], [(1, [10]), (2, [20])]⟩
          ⟨[1, 3], [], [(1, []), (3, [])]⟩ [(3, 30)] [2] =
        some (src', dst', moved, row) ∧
      (∀ t ∈ (⟨[1, 2], [⟨0, 1⟩], [(1, [10]), (2, [20])]⟩ : Archetype).types,
        ¬(t ∈ [2]) → dst'.valueOf ⟨0, 1⟩ t =
          (⟨[1, 2], [⟨0, 1⟩], [(1, [10]), (2, [20])]⟩ : Archetype).valueOf ⟨0, 1⟩ t) ∧
      (⟨0, 1⟩ : Entity) ∈ dst'.entities ∧ (⟨0, 1⟩ : Entity) ∉ src'.entities) :=
  ⟨by decide, by decide,
    C6_migrate_preserves_components
      ⟨[1, 2], [⟨0, 1⟩], [(1, [10]), (2, [20])]⟩
      ⟨[1, 3], [], [(1, []), (3, [])]⟩ ⟨0, 1⟩ [(3, 30)] [2]
      (by decide) (by decide) (by decide) (by decide) (by decide) (by decide)⟩

/-- Within one event's delivery block, a registered system with
distinct id receives the event exactly once when it handles the type,
and never otherwise. -/
theorem count_handlers_map (systems : List DSystem) (s : DSystem) (ev : Nat × Nat)
    (hnd : (systems.map DSystem.id).Nodup) (hs : s ∈ systems) :
    ((handlersFor systems ev.1).map (fun s' => (s'.id, ev))).count (s.id, ev) =
      if s.handles.contains ev.1 then 1 else 0 := by
  induction systems with
  | nil => cases hs
  | cons s0 rest ih =>
      rw [List.map_cons, List.nodup_cons] at hnd
      obtain ⟨hid0, hndrest⟩ := hnd
      unfold handlersFor
      rw [List.filter_cons]
      rcases List.mem_cons.mp hs with hs0 | hsr
      · subst hs0
        have hrest0 : ((rest.filter (fun s' => s'.handles.contains ev.1)).map
            (fun s' => (s'.id, ev))).count (s.id, ev) = 0 := by
          rw [List.count_eq_zero]
          intro hmem
          rcases List.mem_map.mp hmem with ⟨s', hs', hval⟩
          have hideq : s'.id = s.id := congrArg Prod.fst hval
          apply hid0
          rw [← hideq]
          exact List.mem_map_of_mem DSystem.id (List.mem_of_mem_filter hs')
        by_cases hh : s.handles.contains ev.1 = true
        · rw [if_pos hh, if_pos hh, List.map_cons, List.count_cons_self, hrest0]
        · rw [if_neg hh, if_neg hh]
          exact hrest0
      · have hne : s0.id ≠ s.id := fun hh => hid0 (by
          rw [hh]
          exact List.mem_map_of_mem DSystem.id hsr)
        by_cases hh0 : s0.handles.contains ev.1 = true
        · rw [if_pos hh0, List.map_cons, List.count_cons_of_ne (by
            intro hcontra
            exact hne (congrArg Prod.fst hcontra).symm)]
          exact ih hndrest hsr
        · rw [if_neg hh0]
          exact ih hndrest hsr

/-- One dispatch round delivers each buffered event occurrence exactly
once to each registered system handling its type. -/
theorem roundDeliveries_count (systems : List DSystem) (queue : List (Nat × Nat))
    (s : DSystem) (ev : Nat × Nat)
    (hnd : (systems.map DSystem.id).Nodup) (hs : s ∈ systems) :
    (roundDeliveries systems queue).count (s.id, ev) =
      (if s.handles.contains ev.1 then 1 else 0) * queue.count ev := by
  induction queue with
  | nil => simp [roundDeliveries]
  | cons ev0 rest ih =>
      unfold roundDeliveries
      rw [List.count_append, ih]
      by_cases hev : ev0 = ev
      · subst hev
        rw [count_handlers_map systems s ev0 hnd hs, List.count_cons_self]
        rcases Bool.eq_false_or_eq_true (s.handles.contains ev0.1) with hh | hh <;>
          rw [hh] <;> simp <;> omega
      · have h0 : ((handlersFor systems ev0.1).map
            (fun s' => (s'.id, ev0))).count (s.id, ev) = 0 := by
          rw [List.count_eq_zero]
          intro hmem
          rcases List.mem_map.mp hmem with ⟨s', _, hval⟩
          exact hev (congrArg Prod.snd hval)
        rw [h0, List.count_cons_of_ne (fun hh => hev hh.symm)]
        omega

/-- C7: in each dispatch round, every buffered event value is delivered
exactly once to each system registered with a handler for its type
(counted per occurrence); the processed buffer is then discarded — the
next round's input is exactly the events submitted during the round, so
no event persists into a later cycle — and cascaded rounds continue
inside the same run until no events remain. -/
theorem C7_events_exactly_once (systems : List DSystem) (s : DSystem)
    (queue : List (Nat × Nat)) (ev : Nat × Nat) (fuel : Nat)
    (hnd : (systems.map DSystem.id).Nodup) (hs : s ∈ systems) :
    ((roundDeliveries systems queue).count (s.id, ev) =
      (if s.handles.contains ev.1 then 1 else 0) * queue.count ev) ∧
    (∀ (e0 : Nat × Nat) (q2 : List (Nat × Nat)),
      dispatchRun systems (fuel + 1) (e0 :: q2) =
        roundDeliveries systems (e0 :: q2) ::
          dispatchRun systems fuel (roundEmissions systems (e0 :: q2))) ∧
    (dispatchRun systems fuel [] = []) := by
  refine ⟨roundDeliveries_count systems queue s ev hnd hs, fun e0 q2 => rfl, ?_⟩
  cases fuel with
  | zero => rfl
  | succ _ => rfl

/-- Witness for C7 at a concrete configuration: one system with id 1
handling event type 0; the event (0, 5) is delivered to it exactly
once. -/
theorem C7_events_exactly_once_witness :
    ((([⟨1, [0], fun _ _ => []⟩] : List DSystem).map DSystem.id).Nodup) ∧
    ((⟨1, [0], fun _ _ => []⟩ : DSystem) ∈
      ([⟨1, [0], fun _ _ => []⟩] : List DSystem)) ∧
    ((roundDeliveries [⟨1, [0], fun _ _ => []⟩] [(0, 5)]).count
        ((⟨1, [0], fun _ _ => []⟩ : DSystem).id, (0, 5)) =
      (if (⟨1, [0], fun _ _ => []⟩ : DSystem).handles.contains (0, 5).1
        then 1 else 0) * ([(0, 5)] : List (Nat × Nat)).count (0, 5)) :=
  ⟨by decide, List.mem_cons_self _ _,
    (C7_events_exactly_once [⟨1, [0], fun _ _ => []⟩] ⟨1, [0], fun _ _ => []⟩
      [(0, 5)] (0, 5) 0 (by decide) (List.mem_cons_self _ _)).1⟩
